import Mathlib

/-!
Verification of the data-shaping pipeline in embeddings/data_io.py
(load_data_from_npz, filter_data, pad_sequences) against its
natural-language specification.

Shallow embedding conventions:
* a 2D numpy array is a `Mat`: an explicit column count (shape[1]) plus the
  list of rows; the row count (shape[0]) is the length of the row list;
* numeric entries are modelled as `Int` (the pipeline only copies entries,
  it never computes with them, so the float32 dtype is irrelevant);
* `int(np.round(d / 2.))` for an integer `d` is `npRoundDiv2 d`
  (round-half-to-even of the exact midpoint, then the no-op int cast);
* python slice semantics (negative indices, clamping) are `pySlice`;
* a numpy slice assignment checks shapes up to broadcasting; a source
  dimension of size 1 broadcasts across the target dimension, any other
  mismatch raises; this is `npBroadcast`;
* fallible code returns `Except`.
-/

/-- A 2D numpy array: `cols` is shape[1]; the row count shape[0] is
`rows.length`. -/
structure Mat where
  cols : Nat
  rows : List (List Int)
  deriving DecidableEq, Repr

/-- shape[0] of a `Mat`, i.e. `len(cur_x)` / `cur_x.shape[0]`. -/
def Mat.nRows (m : Mat) : Nat := m.rows.length

/-- Errors raised (as numpy/python exceptions) inside `pad_sequences`. -/
inductive PadError where
  | shapeMismatch : PadError
  | emptyBatch : PadError
  deriving DecidableEq, Repr

/-- `int(np.round(d / 2.))` for an integer `d`: `d / 2` is an exact float,
`np.round` rounds half to even, and the `int` cast is then exact.  All the
integer divisions below are exact, so the choice of division convention is
immaterial. -/
def npRoundDiv2 (d : Int) : Int :=
  if d % 2 = 0 then d / 2
  else if (d - 1) % 4 = 0 then (d - 1) / 2
  else (d + 1) / 2

/-- Normalize a python slice endpoint against a list of length `len`:
negative endpoints count from the end, and endpoints are clamped to
`[0, len]`. -/
def pySliceIdx (len : Nat) (i : Int) : Nat :=
  if i < 0 then (i + len).toNat else min i.toNat len

/-- Python row slice `l[s:e]`. -/
def pySlice {α : Type} (l : List α) (s e : Int) : List α :=
  let a := pySliceIdx l.length s
  let b := pySliceIdx l.length e
  (l.drop a).take (b - a)

/-- Assigning a 2D block of shape `(rows.length, rCols)` into a target slot
of shape `(tRows, tCols)`: an exact match assigns as is; otherwise numpy
broadcasting lets a dimension of size 1 stretch across the target
dimension; any other mismatch is an error (`none`). -/
def npBroadcast (tRows tCols : Nat) (rows : List (List Int)) (rCols : Nat) :
    Option (List (List Int)) :=
  if rows.length = tRows ∧ rCols = tCols then some rows
  else if (rows.length = tRows ∨ rows.length = 1) ∧ (rCols = tCols ∨ rCols = 1) then
    some ((List.range tRows).map (fun i =>
      let r := if rows.length = 1 then rows.getD 0 [] else rows.getD i []
      if rCols = tCols then r else List.replicate tCols (r.getD 0 0)))
  else none

/-- The body of the `for i_data, cur_x in enumerate(x)` loop of
`pad_sequences`, for one sequence `cx`: returns the padded rows of this
batch item, its reported length, and its mask row (the mask row is always
computed here; `padSequences` discards it when no mask was requested). -/
def padOne (nPadded d0 : Nat) (centerPadded : Bool) (cx : Mat) :
    Except PadError (List (List Int) × Nat × List Int) :=
  let length := cx.nRows
  match centerPadded with
  | true =>
    let padding : Int := npRoundDiv2 ((nPadded : Int) - (length : Int))
    if length ≤ nPadded then
      let a := pySliceIdx nPadded padding
      let b := pySliceIdx nPadded (padding + (length : Int))
      match npBroadcast (b - a) d0 cx.rows cx.cols with
      | none => .error .shapeMismatch
      | some block =>
          .ok ((List.range nPadded).map (fun j =>
                 if a ≤ j ∧ j < b then block.getD (j - a) [] else List.replicate d0 0),
               min length nPadded,
               (List.range nPadded).map (fun j => if a ≤ j ∧ j < b then (1 : Int) else 0))
    else
      let window := pySlice cx.rows (-padding) (-padding + (nPadded : Int))
      match npBroadcast nPadded d0 window cx.cols with
      | none => .error .shapeMismatch
      | some block =>
          .ok ((List.range nPadded).map (fun j => block.getD j []),
               min length nPadded,
               List.replicate nPadded (1 : Int))
  | false =>
    let len2 := min length nPadded
    match npBroadcast len2 d0 (cx.rows.take len2) cx.cols with
    | none => .error .shapeMismatch
    | some block =>
        .ok ((List.range nPadded).map (fun j =>
               if j < len2 then block.getD j [] else List.replicate d0 0),
             len2,
             (List.range nPadded).map (fun j => if j < len2 then (1 : Int) else 0))

/-- The full loop of `pad_sequences` over the batch, failing at the first
item whose slice assignment raises (so no partial output survives). -/
def padAll (nPadded d0 : Nat) (c : Bool) :
    List Mat → Except PadError (List (List (List Int)) × List Nat × List (List Int))
  | [] => .ok ([], [], [])
  | cx :: rest =>
    match padOne nPadded d0 c cx with
    | .error e => .error e
    | .ok (p, l, mk) =>
      match padAll nPadded d0 c rest with
      | .error e => .error e
      | .ok (ps, ls, mks) => .ok (p :: ps, l :: ls, mk :: mks)

/-- `pad_sequences(x, n_padded, center_padded, return_mask)`: the feature
dimension of the padded tensor is `x[0].shape[1]` (an empty batch raises
before the loop), and the mask is returned only when requested. -/
def padSequences (x : List Mat) (nPadded : Nat) (centerPadded returnMask : Bool) :
    Except PadError (List (List (List Int)) × List Nat × Option (List (List Int))) :=
  match x with
  | [] => .error .emptyBatch
  | x0 :: _ =>
    match padAll nPadded x0.cols centerPadded x with
    | .error e => .error e
    | .ok (ps, ls, mks) => .ok (ps, ls, if returnMask then some mks else none)

/-! ## load_data_from_npz -/

/-- Errors raised inside `load_data_from_npz`: `utt_key_split[1]` raises
IndexError when the key has fewer than two underscore-separated segments,
and `x[0].shape` raises IndexError when no entry was retained. -/
inductive LoadError where
  | malformedKey : LoadError
  | emptyData : LoadError
  deriving DecidableEq, Repr

/-- Splitting a character list at every underscore, keeping empty pieces,
exactly like python str.split with an explicit separator. -/
def splitUnderscoreAux (cur : List Char) : List Char → List (List Char)
  | [] => [cur.reverse]
  | c :: cs =>
      if c = '_' then cur.reverse :: splitUnderscoreAux [] cs
      else splitUnderscoreAux (c :: cur) cs

/-- python `key.split("_")`. -/
def splitKey (s : String) : List String :=
  (splitUnderscoreAux [] s.toList).map (fun l => String.mk l)

/-- python string comparison (lexicographic on code points) on character
lists. -/
def charListLe : List Char → List Char → Bool
  | [], _ => true
  | _ :: _, [] => false
  | a :: as, b :: bs =>
      if a.toNat < b.toNat then true
      else if b.toNat < a.toNat then false
      else charListLe as bs

/-- python `a <= b` on strings. -/
def strLe (a b : String) : Bool := charListLe a.toList b.toList

/-- Insert a string into a `strLe`-ascending list, keeping it ascending. -/
def insertStr (x : String) : List String → List String
  | [] => [x]
  | y :: ys => if strLe x y then x :: y :: ys else y :: insertStr x ys

/-- python `sorted(...)` on a list of strings. -/
def sortStrings : List String → List String
  | [] => []
  | x :: xs => insertStr x (sortStrings xs)

/-- `npz[key]`: look up the array stored under a key of the archive (an
archive is a finite mapping, modelled as an association list with distinct
keys; an absent key never occurs because the loop only ever looks up keys
of the archive). -/
def lookupNpz (npz : List (String × Mat)) (k : String) : Mat :=
  match npz.find? (fun p => p.1 == k) with
  | some p => p.2
  | none => ⟨0, []⟩

/-- The retention test of the loop: skip when
`min_length is not None and len(cur_x) <= min_length`. -/
def passesMin (minLength : Option Nat) (len : Nat) : Bool :=
  match minLength with
  | none => true
  | some m => decide (m < len)

/-- The `for utt_key in sorted(npz)` loop of `load_data_from_npz`,
processing the (already sorted) keys in order and accumulating the five
parallel lists `(x, labels, lengths, keys, speakers)`. -/
def processKeys (npz : List (String × Mat)) (minLength : Option Nat) :
    List String →
    Except LoadError (List Mat × List String × List Nat × List String × List String)
  | [] => .ok ([], [], [], [], [])
  | k :: ks =>
    let curX := lookupNpz npz k
    if passesMin minLength curX.nRows then
      let segs := splitKey k
      if 2 ≤ segs.length then
        match processKeys npz minLength ks with
        | .error e => .error e
        | .ok (x, labels, lengths, keys, speakers) =>
            .ok (curX :: x, segs.getD 0 "" :: labels, curX.nRows :: lengths,
                 k :: keys, segs.getD 1 "" :: speakers)
      else .error .malformedKey
    else processKeys npz minLength ks

/-- `load_data_from_npz(npz_fn, min_length)`: iterate over the sorted keys,
then evaluate `x[0].shape` (which raises when nothing was retained), and
return the five parallel lists. -/
def loadDataFromNpz (npz : List (String × Mat)) (minLength : Option Nat) :
    Except LoadError (List Mat × List String × List Nat × List String × List String) :=
  match processKeys npz minLength (sortStrings (npz.map Prod.fst)) with
  | .error e => .error e
  | .ok r => match r.1 with
    | [] => .error .emptyData
    | _ :: _ => .ok r

/-- The keys that `load_data_from_npz` retains: the sorted keys of the
archive whose stored sequence passes the `min_length` test. -/
def retainedKeys (npz : List (String × Mat)) (minLength : Option Nat) : List String :=
  (sortStrings (npz.map Prod.fst)).filter
    (fun k => passesMin minLength (lookupNpz npz k).nRows)

/-! ## filter_data

The python `random` module holds one global Mersenne-Twister state:
`random.seed(1)` overwrites it and `random.shuffle` consumes it.  The
stream is modelled by an abstract deterministic generator (`RngState`,
`rngNext`): a linear congruential step stands in for the Mersenne Twister,
since the claims about `filter_data` depend only on the stream being a
deterministic function of the seed and on the shuffle producing indices of
the shuffled list, never on which particular permutation comes out. -/

/-- The state of the global pseudorandom generator of the python `random`
module. -/
abbrev RngState : Type := Nat

/-- `random.seed(n)`: reset the global generator state from the seed,
discarding whatever state was there before. -/
def seedRng (n : Nat) : RngState := n

/-- One draw from the deterministic pseudorandom stream (a linear
congruential step standing in for the Mersenne Twister). -/
def rngNext (g : RngState) : Nat × RngState :=
  let g2 := (6364136223846793005 * g + 1442695040888963407) % 18446744073709551616
  (g2, g2)

/-- `random.shuffle(l)` modelled as repeated random selection without
replacement: draw a position of the remaining list, emit that element,
recurse on the rest.  The fuel argument is the initial list length. -/
def shuffleAux : Nat → RngState → List Nat → List Nat × RngState
  | 0, g, _ => ([], g)
  | n + 1, g, l =>
    let (r, g2) := rngNext g
    let j := r % l.length
    let (rest, g3) := shuffleAux n g2 (l.eraseIdx j)
    (l.getD j 0 :: rest, g3)

/-- `random.shuffle` of a list of indices, returning the shuffled list and
the advanced generator state. -/
def shuffleList (g : RngState) (l : List Nat) : List Nat × RngState :=
  shuffleAux l.length g l

/-- The five parallel lists `(data, labels, lengths, keys, speakers)` that
`filter_data` receives and returns. -/
structure Five where
  data : List Mat
  labels : List String
  lengths : List Nat
  keys : List String
  speakers : List String
  deriving DecidableEq, Repr

/-- The filtering loop shared by all four stages: for each index `i` of
`sel` in order, append `data[i]`, `labels[i]`, `lengths[i]`, `keys[i]`,
`speakers[i]` to the five filtered lists. -/
def selectRows (sel : List Nat) (t : Five) : Five where
  data := sel.map (fun i => t.data.getD i ⟨0, []⟩)
  labels := sel.map (fun i => t.labels.getD i "")
  lengths := sel.map (fun i => t.lengths.getD i 0)
  keys := sel.map (fun i => t.keys.getD i "")
  speakers := sel.map (fun i => t.speakers.getD i "")

/-- The distinct elements of a list in order of first occurrence: the key
order of a python `Counter` built from the list. -/
def dedupFirstAux (seen : List String) : List String → List String
  | [] => []
  | x :: xs =>
      if x ∈ seen then dedupFirstAux seen xs
      else x :: dedupFirstAux (x :: seen) xs

/-- Key order of `Counter(labels)`. -/
def dedupFirst (ls : List String) : List String := dedupFirstAux [] ls

/-- Insert into a list that is sorted by descending count, after every
element of greater or equal count (so the overall sort is stable). -/
def insertByCount (ls : List String) (x : String) : List String → List String
  | [] => [x]
  | y :: ys =>
      if ls.count y < ls.count x then x :: y :: ys
      else y :: insertByCount ls x ys

/-- Stable sort of the distinct labels by descending multiplicity in `ls`:
the order of `Counter(ls).most_common()`. -/
def sortByCountDesc (ls : List String) : List String :=
  (dedupFirst ls).foldl (fun acc x => insertByCount ls x acc) []

/-- `[i[0] for i in Counter(ls).most_common(n)]`. -/
def mostCommon (n : Nat) (ls : List String) : List String :=
  (sortByCountDesc ls).take n

/-- The greedy loop of the `n_max_tokens_per_type` stage: walk the shuffled
indices, keep an index while the running count of its label is still below
the cap, and bump that count. -/
def greedySelect (cap : Nat) (labels : List String) :
    List Nat → (String → Nat) → List Nat
  | [], _ => []
  | i :: is, cnt =>
    let lab := labels.getD i ""
    if cnt lab < cap then
      i :: greedySelect cap labels is (fun s => if s = lab then cnt s + 1 else cnt s)
    else greedySelect cap labels is cnt

/-- The `n_max_types` stage: keep the rows whose label is among the
`n_max_types` most frequent labels. -/
def stageMaxTypes (k : Nat) (t : Five) : Five :=
  let types := mostCommon k t.labels
  selectRows ((List.range t.data.length).filter
    (fun i => decide (t.labels.getD i "" ∈ types))) t

/-- The `n_max_tokens` stage: shuffle the indices and keep the first
`n_max_tokens` of the shuffled order. -/
def stageMaxTokens (g : RngState) (k : Nat) (t : Five) : Five × RngState :=
  let p := shuffleList g (List.range t.data.length)
  (selectRows (p.1.take k) t, p.2)

/-- The `n_min_tokens_per_type` stage: keep the rows whose label reaches
the minimum multiplicity in the current label list. -/
def stageMinPerType (k : Nat) (t : Five) : Five :=
  let types := (dedupFirst t.labels).filter (fun lab => decide (k ≤ t.labels.count lab))
  selectRows ((List.range t.data.length).filter
    (fun i => decide (t.labels.getD i "" ∈ types))) t

/-- The `n_max_tokens_per_type` stage: shuffle the indices, then greedily
keep a row while its label's admitted count is below the cap. -/
def stageMaxPerType (g : RngState) (k : Nat) (t : Five) : Five × RngState :=
  let p := shuffleList g (List.range t.data.length)
  (selectRows (greedySelect k t.labels p.1 (fun _ => 0)) t, p.2)

/-- `filter_data(data, labels, lengths, keys, speakers, n_min_tokens_per_type,
n_max_types, n_max_tokens, n_max_tokens_per_type)`.  The ambient generator
state `g` is the state of the python `random` module at call time; the
first statement `random.seed(1)` replaces it, and the two shuffling stages
consume the reseeded stream in order.  The stages run in source order:
`n_max_types`, then `n_max_tokens`, then `n_min_tokens_per_type`, then
`n_max_tokens_per_type`, each on the previous stage's output. -/
def filterData (g : RngState)
    (data : List Mat) (labels : List String) (lengths : List Nat)
    (keys : List String) (speakers : List String)
    (nMinTokensPerType nMaxTypes nMaxTokens nMaxTokensPerType : Option Nat) : Five :=
  let g1 := seedRng 1
  let t0 : Five := ⟨data, labels, lengths, keys, speakers⟩
  let t1 := match nMaxTypes with
    | none => t0
    | some k => stageMaxTypes k t0
  let p2 := match nMaxTokens with
    | none => (t1, g1)
    | some k => stageMaxTokens g1 k t1
  let t3 := match nMinTokensPerType with
    | none => p2.1
    | some k => stageMinPerType k p2.1
  let t4 := match nMaxTokensPerType with
    | none => t3
    | some k => (stageMaxPerType p2.2 k t3).1
  t4

/-- The rows of output list index `i` of `filter_data` all come from one
common input index `sel[i]` of the five parallel input lists: the output is
`selectRows sel` of the input for one index list `sel` whose entries are
in range. -/
def OriginOf (n : Nat) (t0 tOut : Five) : Prop :=
  ∃ sel : List Nat, (∀ i ∈ sel, i < n) ∧ tOut = selectRows sel t0

/-- What centered padding must produce for one sequence `cx` of length
`L ≤ T`: with `offset = round-half-to-even((T - L) / 2)`, the padded item
has `T` rows, rows `[offset, offset + L)` are exactly the rows of `cx`,
every other row is a zero row of width `d0`, the reported length is `L`,
and the mask row is 1 exactly on `[offset, offset + L)`, so it sums to
`L`. -/
def CenterShortPadded (T d0 : Nat) (cx : Mat)
    (prow : List (List Int)) (lrep : Nat) (mrow : List Int) : Prop :=
  let off := (npRoundDiv2 ((T : Int) - cx.nRows)).toNat
  prow.length = T ∧
  (∀ j, j < T → prow.getD j [] =
      if off ≤ j ∧ j < off + cx.nRows then cx.rows.getD (j - off) []
      else List.replicate d0 0) ∧
  lrep = cx.nRows ∧
  (∀ j, j < T → mrow.getD j 0 = if off ≤ j ∧ j < off + cx.nRows then (1 : Int) else 0) ∧
  mrow.sum = (cx.nRows : Int)

/-- What centered cropping must produce for one sequence `cx` of length
`L > T`: with `offset = round-half-to-even((T - L) / 2)` (non-positive
here), the item equals the window of exactly `T` consecutive rows of `cx`
starting at row `-offset`, that window is in bounds, the reported length
is `T`, and the mask row is all ones. -/
def CenterCropPadded (T : Nat) (cx : Mat)
    (prow : List (List Int)) (lrep : Nat) (mrow : List Int) : Prop :=
  let start := (-(npRoundDiv2 ((T : Int) - cx.nRows))).toNat
  prow = (cx.rows.drop start).take T ∧
  prow.length = T ∧
  start + T ≤ cx.nRows ∧
  lrep = T ∧
  mrow = List.replicate T 1

/-! ## Sanity checks of the embedding on concrete inputs -/

example : npRoundDiv2 1 = 0 := by decide
example : npRoundDiv2 3 = 2 := by decide
example : npRoundDiv2 (-1) = 0 := by decide
example : npRoundDiv2 (-3) = -2 := by decide
example : npRoundDiv2 (-5) = -2 := by decide
example : npRoundDiv2 4 = 2 := by decide

example :
    loadDataFromNpz [("b_y", ⟨1, [[2], [3]]⟩), ("a_x", ⟨1, [[1]]⟩)] none =
      .ok ([⟨1, [[1]]⟩, ⟨1, [[2], [3]]⟩], ["a", "b"], [1, 2], ["a_x", "b_y"], ["x", "y"]) := by
  rfl

example :
    filterData 77 [⟨1, [[1]]⟩, ⟨1, [[2]]⟩] ["a", "b"] [1, 1] ["a_x", "b_y"] ["x", "y"]
      none (some 1) none none =
    ⟨[⟨1, [[1]]⟩], ["a"], [1], ["a_x"], ["x"]⟩ := by rfl

example :
    (filterData 77 [⟨1, [[1]]⟩, ⟨1, [[2]]⟩, ⟨1, [[3]]⟩] ["a", "a", "b"] [1, 1, 1]
      ["k1", "k2", "k3"] ["x", "x", "y"] none none none (some 1)).labels.count "a" = 1 := by
  rfl

theorem npRoundDiv2_bounds (d : Int) :
    (0 ≤ d → 0 ≤ npRoundDiv2 d ∧ npRoundDiv2 d ≤ d) ∧
    (d ≤ 0 → d ≤ npRoundDiv2 d ∧ npRoundDiv2 d ≤ 0) := by
  unfold npRoundDiv2
  split
  · constructor <;> intro h <;> omega
  · split
    · constructor <;> intro h <;> omega
    · constructor <;> intro h <;> omega

/-! ## Helper lemmas about the filter stages -/

theorem rangeMapGetD {α : Type} (l : List α) (d : α) :
    (List.range l.length).map (fun i => l.getD i d) = l := by
  apply List.ext_getElem (by simp)
  intro i h1 h2
  simp only [List.getElem_map, List.getElem_range]
  exact List.getD_eq_getElem l d h2

theorem getD_map_of_lt {α β : Type} (f : α → β) (l : List α) (i : Nat) (d : β) (d2 : α)
    (h : i < l.length) : (l.map f).getD i d = f (l.getD i d2) := by
  rw [List.getD_eq_getElem _ _ (by simpa using h), List.getD_eq_getElem _ _ h]
  simp

theorem shuffleAux_subset :
    ∀ (n : Nat) (g : RngState) (l : List Nat), n = l.length →
      ∀ x ∈ (shuffleAux n g l).1, x ∈ l := by
  intro n
  induction n with
  | zero => intro g l _ x hx; simp [shuffleAux] at hx
  | succ n ih =>
    intro g l hl x hx
    simp only [shuffleAux] at hx
    have hpos : 0 < l.length := by omega
    have hj : (rngNext g).1 % l.length < l.length := Nat.mod_lt _ hpos
    cases hx with
    | head =>
      rw [List.getD_eq_getElem _ _ hj]
      exact List.getElem_mem _
    | tail _ hx =>
      have hlen : n = (l.eraseIdx ((rngNext g).1 % l.length)).length := by
        rw [List.length_eraseIdx]
        simp only [hj, if_pos]
        omega
      exact (List.eraseIdx_sublist l _).subset (ih _ _ hlen x hx)

theorem greedySelect_subset (cap : Nat) (labels : List String) :
    ∀ (idxs : List Nat) (cnt : String → Nat),
      ∀ x ∈ greedySelect cap labels idxs cnt, x ∈ idxs := by
  intro idxs
  induction idxs with
  | nil => intro cnt x hx; simp [greedySelect] at hx
  | cons i is ih =>
    intro cnt x hx
    simp only [greedySelect] at hx
    split at hx
    · cases hx with
      | head => exact List.mem_cons_self i is
      | tail _ hx => exact List.mem_cons_of_mem i (ih _ x hx)
    · exact List.mem_cons_of_mem i (ih _ x hx)

theorem greedySelect_count (cap : Nat) (labels : List String) :
    ∀ (idxs : List Nat) (cnt : String → Nat) (lab : String), cnt lab ≤ cap →
      ((greedySelect cap labels idxs cnt).map (fun i => labels.getD i "")).count lab + cnt lab
        ≤ cap := by
  intro idxs
  induction idxs with
  | nil =>
    intro cnt lab hle
    simpa [greedySelect] using hle
  | cons i is ih =>
    intro cnt lab hle
    simp only [greedySelect]
    by_cases hc : cnt (labels.getD i "") < cap
    · rw [if_pos hc]
      rcases eq_or_ne lab (labels.getD i "") with he | he
      · have hred :
            (if lab = labels.getD i "" then cnt lab + 1 else cnt lab) = cnt lab + 1 :=
          if_pos he
        have hlt : cnt lab < cap := by rw [he]; exact hc
        have hIH := ih (fun s => if s = labels.getD i "" then cnt s + 1 else cnt s) lab
          (by simp only [hred]; omega)
        simp only [hred] at hIH
        rw [List.map_cons]
        rw [he] at hIH ⊢
        rw [List.count_cons_self]
        omega
      · have hIH := ih (fun s => if s = labels.getD i "" then cnt s + 1 else cnt s) lab
          (by simp only [if_neg he]; exact hle)
        simp only [if_neg he] at hIH
        rw [List.map_cons, List.count_cons_of_ne he]
        exact hIH
    · rw [if_neg hc]
      exact ih cnt lab hle

theorem card_le_of_mem_all (out types : List String) (h : ∀ x ∈ out, x ∈ types) :
    out.toFinset.card ≤ types.length := by
  have hsub : out.toFinset ⊆ types.toFinset := by
    intro x hx
    rw [List.mem_toFinset] at hx ⊢
    exact h x hx
  exact le_trans (Finset.card_le_card hsub) types.toFinset_card_le

theorem stageMaxTypes_labels_mem (k : Nat) (t : Five) :
    ∀ lab ∈ (stageMaxTypes k t).labels, lab ∈ mostCommon k t.labels := by
  intro lab h
  simp only [stageMaxTypes, selectRows, List.mem_map] at h
  obtain ⟨i, hi, rfl⟩ := h
  simpa using (List.mem_filter.mp hi).2

theorem stageMaxTypes_card (k : Nat) (t : Five) :
    (stageMaxTypes k t).labels.toFinset.card ≤ k :=
  le_trans
    (card_le_of_mem_all _ _ (stageMaxTypes_labels_mem k t))
    (List.length_take_le _ _)

theorem stageMaxPerType_count (g : RngState) (cap : Nat) (t : Five) (lab : String) :
    ((stageMaxPerType g cap t).1.labels).count lab ≤ cap := by
  have h := greedySelect_count cap t.labels
    (shuffleList g (List.range t.data.length)).1 (fun _ => 0) lab (Nat.zero_le cap)
  simpa [stageMaxPerType, selectRows] using h

theorem stageMaxPerType_labels_mem (g : RngState) (cap : Nat) (t : Five)
    (hlen : t.labels.length = t.data.length) :
    ∀ lab ∈ (stageMaxPerType g cap t).1.labels, lab ∈ t.labels := by
  intro lab h
  simp only [stageMaxPerType, selectRows, List.mem_map] at h
  obtain ⟨i, hi, rfl⟩ := h
  have h1 : i ∈ (shuffleList g (List.range t.data.length)).1 :=
    greedySelect_subset _ _ _ _ _ hi
  have h2 : i ∈ List.range t.data.length := shuffleAux_subset _ _ _ (by simp) _ h1
  have h3 : i < t.labels.length := by rw [hlen]; simpa using h2
  rw [List.getD_eq_getElem _ _ h3]
  exact List.getElem_mem _

theorem stageMaxTypes_labels_length (k : Nat) (t : Five) :
    (stageMaxTypes k t).labels.length = (stageMaxTypes k t).data.length := by
  simp [stageMaxTypes, selectRows]

/-! ## Origin tracking through the filter stages (for the parallel-list
invariant) -/

theorem selList_comp {α : Type} (sel1 sel2 : List Nat) (l : List α) (d : α)
    (hv : ∀ i ∈ sel2, i < sel1.length) :
    sel2.map (fun i => (sel1.map (fun j => l.getD j d)).getD i d) =
      (sel2.map (fun i => sel1.getD i 0)).map (fun j => l.getD j d) := by
  rw [List.map_map]
  apply List.map_congr_left
  intro i hi
  simp only [Function.comp]
  exact getD_map_of_lt _ _ _ _ 0 (hv i hi)

theorem selectRows_comp (sel1 sel2 : List Nat) (t : Five)
    (hv : ∀ i ∈ sel2, i < sel1.length) :
    selectRows sel2 (selectRows sel1 t) =
      selectRows (sel2.map (fun i => sel1.getD i 0)) t := by
  simp only [selectRows, Five.mk.injEq]
  exact ⟨selList_comp _ _ _ _ hv, selList_comp _ _ _ _ hv, selList_comp _ _ _ _ hv,
    selList_comp _ _ _ _ hv, selList_comp _ _ _ _ hv⟩

theorem selectRows_range (t : Five) (n : Nat)
    (h1 : t.data.length = n) (h2 : t.labels.length = n) (h3 : t.lengths.length = n)
    (h4 : t.keys.length = n) (h5 : t.speakers.length = n) :
    selectRows (List.range n) t = t := by
  obtain ⟨d, l, len, k, s⟩ := t
  simp only at h1 h2 h3 h4 h5
  simp only [selectRows, Five.mk.injEq]
  subst h1
  refine ⟨rangeMapGetD d _, ?_, ?_, ?_, ?_⟩
  · rw [← h2]; exact rangeMapGetD l _
  · rw [← h3]; exact rangeMapGetD len _
  · rw [← h4]; exact rangeMapGetD k _
  · rw [← h5]; exact rangeMapGetD s _

theorem origin_step (n : Nat) (t0 t1 : Five) (h : OriginOf n t0 t1) (sel2 : List Nat)
    (hv : ∀ i ∈ sel2, i < t1.data.length) : OriginOf n t0 (selectRows sel2 t1) := by
  obtain ⟨sel1, hval, rfl⟩ := h
  have hlen : (selectRows sel1 t0).data.length = sel1.length := by
    simp [selectRows]
  refine ⟨sel2.map (fun i => sel1.getD i 0), ?_, ?_⟩
  · intro i hi
    simp only [List.mem_map] at hi
    obtain ⟨j, hj, rfl⟩ := hi
    have hjlt : j < sel1.length := by rw [← hlen]; exact hv j hj
    refine hval _ ?_
    rw [List.getD_eq_getElem _ _ hjlt]
    exact List.getElem_mem _
  · exact selectRows_comp sel1 sel2 t0 (fun i hi => by rw [← hlen]; exact hv i hi)

theorem origin_stageMaxTypes (n k : Nat) (t0 t1 : Five) (h : OriginOf n t0 t1) :
    OriginOf n t0 (stageMaxTypes k t1) := by
  unfold stageMaxTypes
  apply origin_step n t0 t1 h
  intro i hi
  simpa using (List.mem_filter.mp hi).1

theorem origin_stageMaxTokens (n k : Nat) (g : RngState) (t0 t1 : Five)
    (h : OriginOf n t0 t1) : OriginOf n t0 (stageMaxTokens g k t1).1 := by
  unfold stageMaxTokens
  apply origin_step n t0 t1 h
  intro i hi
  have h1 : i ∈ (shuffleList g (List.range t1.data.length)).1 :=
    List.mem_of_mem_take hi
  have h2 : i ∈ List.range t1.data.length := shuffleAux_subset _ _ _ rfl _ h1
  simpa using h2

theorem origin_stageMinPerType (n k : Nat) (t0 t1 : Five) (h : OriginOf n t0 t1) :
    OriginOf n t0 (stageMinPerType k t1) := by
  unfold stageMinPerType
  apply origin_step n t0 t1 h
  intro i hi
  simpa using (List.mem_filter.mp hi).1

theorem origin_stageMaxPerType (n k : Nat) (g : RngState) (t0 t1 : Five)
    (h : OriginOf n t0 t1) : OriginOf n t0 (stageMaxPerType g k t1).1 := by
  unfold stageMaxPerType
  apply origin_step n t0 t1 h
  intro i hi
  have h1 : i ∈ (shuffleList g (List.range t1.data.length)).1 :=
    greedySelect_subset _ _ _ _ _ hi
  have h2 : i ∈ List.range t1.data.length := shuffleAux_subset _ _ _ rfl _ h1
  simpa using h2

theorem filterData_origin (g : RngState)
    (data : List Mat) (labels : List String) (lengths : List Nat)
    (keys speakers : List String) (c1 c2 c3 c4 : Option Nat)
    (h2 : labels.length = data.length) (h3 : lengths.length = data.length)
    (h4 : keys.length = data.length) (h5 : speakers.length = data.length) :
    OriginOf data.length ⟨data, labels, lengths, keys, speakers⟩
      (filterData g data labels lengths keys speakers c1 c2 c3 c4) := by
  have h0 : OriginOf data.length ⟨data, labels, lengths, keys, speakers⟩
      ⟨data, labels, lengths, keys, speakers⟩ := by
    refine ⟨List.range data.length, ?_, ?_⟩
    · intro i hi; simpa using hi
    · exact (selectRows_range _ _ rfl h2 h3 h4 h5).symm
  unfold filterData
  cases c2 with
  | none =>
    cases c3 with
    | none =>
      cases c1 with
      | none =>
        cases c4 with
        | none => exact h0
        | some k => exact origin_stageMaxPerType _ _ _ _ _ h0
      | some k =>
        cases c4 with
        | none => exact origin_stageMinPerType _ _ _ _ h0
        | some k4 => exact origin_stageMaxPerType _ _ _ _ _ (origin_stageMinPerType _ _ _ _ h0)
    | some k3 =>
      have ha := origin_stageMaxTokens _ k3 (seedRng 1) _ _ h0
      cases c1 with
      | none =>
        cases c4 with
        | none => exact ha
        | some k => exact origin_stageMaxPerType _ _ _ _ _ ha
      | some k =>
        cases c4 with
        | none => exact origin_stageMinPerType _ _ _ _ ha
        | some k4 => exact origin_stageMaxPerType _ _ _ _ _ (origin_stageMinPerType _ _ _ _ ha)
  | some k2 =>
    have hb := origin_stageMaxTypes _ k2 _ _ h0
    cases c3 with
    | none =>
      cases c1 with
      | none =>
        cases c4 with
        | none => exact hb
        | some k => exact origin_stageMaxPerType _ _ _ _ _ hb
      | some k =>
        cases c4 with
        | none => exact origin_stageMinPerType _ _ _ _ hb
        | some k4 => exact origin_stageMaxPerType _ _ _ _ _ (origin_stageMinPerType _ _ _ _ hb)
    | some k3 =>
      have hc := origin_stageMaxTokens _ k3 (seedRng 1) _ _ hb
      cases c1 with
      | none =>
        cases c4 with
        | none => exact hc
        | some k => exact origin_stageMaxPerType _ _ _ _ _ hc
      | some k =>
        cases c4 with
        | none => exact origin_stageMinPerType _ _ _ _ hc
        | some k4 => exact origin_stageMaxPerType _ _ _ _ _ (origin_stageMinPerType _ _ _ _ hc)

/-! ## Lemmas about sorted keys and the load loop -/

theorem charListLe_trans : ∀ (as bs cs : List Char),
    charListLe as bs = true → charListLe bs cs = true → charListLe as cs = true := by
  intro as
  induction as with
  | nil => intro bs cs _ _; rfl
  | cons a as ih =>
    intro bs cs h1 h2
    cases bs with
    | nil => simp [charListLe] at h1
    | cons b bs =>
      cases cs with
      | nil => simp [charListLe] at h2
      | cons c cs =>
        simp only [charListLe] at h1 h2 ⊢
        by_cases hab : a.toNat < b.toNat
        · by_cases hbc : b.toNat < c.toNat
          · rw [if_pos (by omega : a.toNat < c.toNat)]
          · by_cases hcb : c.toNat < b.toNat
            · rw [if_neg hbc, if_pos hcb] at h2
              exact absurd h2 (by simp)
            · rw [if_pos (by omega : a.toNat < c.toNat)]
        · by_cases hba : b.toNat < a.toNat
          · rw [if_neg hab, if_pos hba] at h1
            exact absurd h1 (by simp)
          · rw [if_neg hab, if_neg hba] at h1
            by_cases hbc : b.toNat < c.toNat
            · rw [if_pos (by omega : a.toNat < c.toNat)]
            · by_cases hcb : c.toNat < b.toNat
              · rw [if_neg hbc, if_pos hcb] at h2
                exact absurd h2 (by simp)
              · rw [if_neg hbc, if_neg hcb] at h2
                rw [if_neg (by omega : ¬a.toNat < c.toNat),
                  if_neg (by omega : ¬c.toNat < a.toNat)]
                exact ih bs cs h1 h2

theorem charListLe_total : ∀ (as bs : List Char),
    charListLe as bs = true ∨ charListLe bs as = true := by
  intro as
  induction as with
  | nil => intro bs; left; rfl
  | cons a as ih =>
    intro bs
    cases bs with
    | nil => right; rfl
    | cons b bs =>
      simp only [charListLe]
      by_cases hab : a.toNat < b.toNat
      · left; rw [if_pos hab]
      · by_cases hba : b.toNat < a.toNat
        · right; rw [if_pos hba]
        · rw [if_neg hab, if_neg hba, if_neg hba, if_neg hab]
          exact ih bs

theorem strLe_trans (a b c : String) (h1 : strLe a b = true) (h2 : strLe b c = true) :
    strLe a c = true := charListLe_trans _ _ _ h1 h2

theorem strLe_total (a b : String) : strLe a b = true ∨ strLe b a = true :=
  charListLe_total _ _

theorem mem_insertStr : ∀ (l : List String) (x z : String),
    z ∈ insertStr x l ↔ z = x ∨ z ∈ l := by
  intro l
  induction l with
  | nil => intro x z; simp [insertStr]
  | cons y ys ih =>
    intro x z
    simp only [insertStr]
    by_cases hxy : strLe x y = true
    · rw [if_pos hxy]
      simp [or_comm, or_left_comm]
    · rw [if_neg hxy]
      simp only [List.mem_cons, ih]
      tauto

theorem pairwise_insertStr :
    ∀ (l : List String), l.Pairwise (fun a b => strLe a b = true) →
      ∀ x, (insertStr x l).Pairwise (fun a b => strLe a b = true) := by
  intro l
  induction l with
  | nil => intro _ x; simp [insertStr]
  | cons y ys ih =>
    intro h x
    obtain ⟨hy, hys⟩ := List.pairwise_cons.mp h
    simp only [insertStr]
    by_cases hxy : strLe x y = true
    · rw [if_pos hxy]
      refine List.Pairwise.cons ?_ h
      intro z hz
      rcases List.mem_cons.mp hz with rfl | hz
      · exact hxy
      · exact strLe_trans x y z hxy (hy z hz)
    · rw [if_neg hxy]
      refine List.Pairwise.cons ?_ (ih hys x)
      intro z hz
      rcases (mem_insertStr ys x z).mp hz with hzx | hz
      · rw [hzx]
        rcases strLe_total x y with hc | hc
        · exact absurd hc hxy
        · exact hc
      · exact hy z hz

theorem sortStrings_pairwise :
    ∀ l : List String, (sortStrings l).Pairwise (fun a b => strLe a b = true) := by
  intro l
  induction l with
  | nil => simp [sortStrings]
  | cons x xs ih => exact pairwise_insertStr _ ih x

theorem mem_sortStrings : ∀ (l : List String) (x : String),
    x ∈ sortStrings l ↔ x ∈ l := by
  intro l
  induction l with
  | nil => intro x; simp [sortStrings]
  | cons y ys ih =>
    intro x
    simp only [sortStrings, mem_insertStr, List.mem_cons, ih]

theorem processKeys_ok_spec (npz : List (String × Mat)) (m : Option Nat) :
    ∀ (ks : List String) (x : List Mat) (l : List String) (len : List Nat)
      (k s : List String),
      processKeys npz m ks = .ok (x, l, len, k, s) →
        k = ks.filter (fun key => passesMin m (lookupNpz npz key).nRows) ∧
        x = k.map (fun key => lookupNpz npz key) ∧
        l = k.map (fun key => (splitKey key).getD 0 "") ∧
        len = k.map (fun key => (lookupNpz npz key).nRows) ∧
        s = k.map (fun key => (splitKey key).getD 1 "") := by
  intro ks
  induction ks with
  | nil =>
    intro x l len k s h
    simp only [processKeys, Except.ok.injEq, Prod.mk.injEq] at h
    obtain ⟨rfl, rfl, rfl, rfl, rfl⟩ := h
    simp
  | cons k0 ks ih =>
    intro x l len k s h
    simp only [processKeys] at h
    split at h
    case isTrue hp =>
      split at h
      case isTrue hseg =>
        cases hrec : processKeys npz m ks with
        | error e => rw [hrec] at h; simp at h
        | ok r =>
          obtain ⟨x2, l2, len2, k2, s2⟩ := r
          rw [hrec] at h
          simp only [Except.ok.injEq, Prod.mk.injEq] at h
          obtain ⟨rfl, rfl, rfl, rfl, rfl⟩ := h
          obtain ⟨hs1, hs2, hs3, hs4, hs5⟩ := ih x2 l2 len2 k2 s2 hrec
          refine ⟨?_, ?_, ?_, ?_, ?_⟩ <;>
            simp [List.filter_cons, hp, hs1, hs2, hs3, hs4, hs5]
      case isFalse hseg => simp at h
    case isFalse hp =>
      obtain ⟨hs1, hs2, hs3, hs4, hs5⟩ := ih x l len k s h
      have hp2 : passesMin m (lookupNpz npz k0).nRows = false := by
        simpa using hp
      refine ⟨?_, hs2, hs3, hs4, hs5⟩
      rw [hs1]
      simp [List.filter_cons, hp2]

theorem load_ok_spec (npz : List (String × Mat)) (m : Option Nat)
    (x : List Mat) (l : List String) (len : List Nat) (k s : List String)
    (h : loadDataFromNpz npz m = .ok (x, l, len, k, s)) :
    k = retainedKeys npz m ∧
    x = k.map (fun key => lookupNpz npz key) ∧
    l = k.map (fun key => (splitKey key).getD 0 "") ∧
    len = k.map (fun key => (lookupNpz npz key).nRows) ∧
    s = k.map (fun key => (splitKey key).getD 1 "") := by
  unfold loadDataFromNpz at h
  cases hrec : processKeys npz m (sortStrings (npz.map Prod.fst)) with
  | error e => rw [hrec] at h; simp at h
  | ok r =>
    rw [hrec] at h
    obtain ⟨x2, l2, len2, k2, s2⟩ := r
    cases x2 with
    | nil => simp at h
    | cons a as =>
      simp only [Except.ok.injEq, Prod.mk.injEq] at h
      obtain ⟨rfl, rfl, rfl, rfl, rfl⟩ := h
      exact processKeys_ok_spec npz m _ _ _ _ _ _ hrec

theorem processKeys_malformed (npz : List (String × Mat)) (m : Option Nat) :
    ∀ ks : List String,
      (∃ key ∈ ks, passesMin m (lookupNpz npz key).nRows = true ∧ (splitKey key).length < 2) →
      processKeys npz m ks = .error .malformedKey := by
  intro ks
  induction ks with
  | nil => intro h; simp at h
  | cons k0 ks ih =>
    intro h
    obtain ⟨key, hmem, hpass, hbad⟩ := h
    simp only [processKeys]
    by_cases hp : passesMin m (lookupNpz npz k0).nRows = true
    · rw [if_pos hp]
      by_cases hseg : 2 ≤ (splitKey k0).length
      · rw [if_pos hseg]
        have hks : processKeys npz m ks = .error .malformedKey := by
          apply ih

          rcases List.mem_cons.mp hmem with hkey | hkey
          · exact absurd hbad (by rw [hkey]; omega)
          · exact ⟨key, hkey, hpass, hbad⟩
        rw [hks]
      · rw [if_neg hseg]
    · rw [if_neg hp]
      apply ih
      rcases List.mem_cons.mp hmem with hkey | hkey
      · exact absurd (hkey ▸ hpass) hp
      · exact ⟨key, hkey, hpass, hbad⟩

theorem processKeys_none_retained (npz : List (String × Mat)) (m : Option Nat) :
    ∀ ks : List String,
      (∀ key ∈ ks, passesMin m (lookupNpz npz key).nRows = false) →
      processKeys npz m ks = .ok ([], [], [], [], []) := by
  intro ks
  induction ks with
  | nil => intro _; rfl
  | cons k0 ks ih =>
    intro h
    simp only [processKeys]
    rw [if_neg (by simp [h k0 (List.mem_cons_self k0 ks)])]
    exact ih (fun key hk => h key (List.mem_cons_of_mem k0 hk))

/-! ## Claims C6, C7, C10, C9 -/

/-- C6: load_data_from_npz processes keys in sorted lexicographic order and
retains exactly the entries whose length strictly exceeds min_length; the
returned keys are those retained keys in sorted order, each label is the
first and each speaker the second underscore-delimited segment of its key,
and each length is the row count of its sequence. -/
theorem load_sorted_filter_spec (npz : List (String × Mat)) (m : Option Nat)
    (x : List Mat) (l : List String) (len : List Nat) (k s : List String)
    (h : loadDataFromNpz npz m = .ok (x, l, len, k, s)) :
    k = retainedKeys npz m ∧
    k.Pairwise (fun a b => strLe a b = true) ∧
    l = k.map (fun key => (splitKey key).getD 0 "") ∧
    s = k.map (fun key => (splitKey key).getD 1 "") ∧
    len = k.map (fun key => (lookupNpz npz key).nRows) ∧
    x = k.map (fun key => lookupNpz npz key) := by
  obtain ⟨h1, h2, h3, h4, h5⟩ := load_ok_spec npz m x l len k s h
  refine ⟨h1, ?_, h3, h5, h4, h2⟩
  rw [h1]
  unfold retainedKeys
  exact (sortStrings_pairwise _).sublist (List.filter_sublist _)

theorem load_sorted_filter_witness :
    loadDataFromNpz [("b_y", ⟨1, [[2], [3]]⟩), ("a_x", ⟨1, [[1]]⟩)] none =
        .ok ([⟨1, [[1]]⟩, ⟨1, [[2], [3]]⟩], ["a", "b"], [1, 2], ["a_x", "b_y"], ["x", "y"]) ∧
    (["a_x", "b_y"] = retainedKeys [("b_y", ⟨1, [[2], [3]]⟩), ("a_x", ⟨1, [[1]]⟩)] none ∧
     (["a_x", "b_y"] : List String).Pairwise (fun a b => strLe a b = true) ∧
     ["a", "b"] = (["a_x", "b_y"] : List String).map (fun key => (splitKey key).getD 0 "") ∧
     ["x", "y"] = (["a_x", "b_y"] : List String).map (fun key => (splitKey key).getD 1 "") ∧
     [1, 2] = (["a_x", "b_y"] : List String).map
        (fun key => (lookupNpz [("b_y", ⟨1, [[2], [3]]⟩), ("a_x", ⟨1, [[1]]⟩)] key).nRows) ∧
     [⟨1, [[1]]⟩, ⟨1, [[2], [3]]⟩] = (["a_x", "b_y"] : List String).map
        (fun key => lookupNpz [("b_y", ⟨1, [[2], [3]]⟩), ("a_x", ⟨1, [[1]]⟩)] key)) :=
  ⟨rfl, load_sorted_filter_spec _ none _ _ _ _ _ rfl⟩

/-- C7: load_data_from_npz fails with the malformed-key error whenever some
retained key does not split into at least two underscore-delimited
segments. -/
theorem load_malformed_key_spec (npz : List (String × Mat)) (m : Option Nat)
    (key : String) (hmem : key ∈ npz.map Prod.fst)
    (hpass : passesMin m (lookupNpz npz key).nRows = true)
    (hbad : (splitKey key).length < 2) :
    loadDataFromNpz npz m = .error .malformedKey := by
  have hks : key ∈ sortStrings (npz.map Prod.fst) := (mem_sortStrings _ _).mpr hmem
  have h := processKeys_malformed npz m _ ⟨key, hks, hpass, hbad⟩
  unfold loadDataFromNpz
  rw [h]

theorem load_malformed_key_witness :
    ("nokey" ∈ ([("nokey", (⟨1, [[5]]⟩ : Mat))].map Prod.fst) ∧
      passesMin none (lookupNpz [("nokey", ⟨1, [[5]]⟩)] "nokey").nRows = true ∧
      (splitKey "nokey").length < 2) ∧
    loadDataFromNpz [("nokey", ⟨1, [[5]]⟩)] none = .error .malformedKey :=
  ⟨⟨by decide, by decide, by decide⟩,
   load_malformed_key_spec _ none "nokey" (by decide) (by decide) (by decide)⟩

/-- C10: when the min_length filter drops every entry of the archive (in
particular when the archive is empty), load_data_from_npz raises rather
than returning five empty lists, because it accesses the first retained
item's shape unconditionally. -/
theorem load_empty_error_spec (npz : List (String × Mat)) (m : Option Nat)
    (h : ∀ key ∈ npz.map Prod.fst, passesMin m (lookupNpz npz key).nRows = false) :
    loadDataFromNpz npz m = .error .emptyData := by
  have h2 : ∀ key ∈ sortStrings (npz.map Prod.fst),
      passesMin m (lookupNpz npz key).nRows = false :=
    fun key hk => h key ((mem_sortStrings _ _).mp hk)
  unfold loadDataFromNpz
  rw [processKeys_none_retained npz m _ h2]

theorem load_empty_error_witness :
    (∀ key ∈ ([("a_b", (⟨1, [[7]]⟩ : Mat))].map Prod.fst),
        passesMin (some 5) (lookupNpz [("a_b", ⟨1, [[7]]⟩)] key).nRows = false) ∧
    loadDataFromNpz [("a_b", ⟨1, [[7]]⟩)] (some 5) = .error .emptyData :=
  ⟨by decide, load_empty_error_spec _ (some 5) (by decide)⟩

/-- C9: load_data_from_npz returns five lists of equal length, and
filter_data, given five equal-length lists, returns five equal-length lists
whose i-th elements all originate from one common index of the input lists
(the output is a row selection of the input quintuple). -/
theorem parallel_lists_spec :
    (∀ (npz : List (String × Mat)) (m : Option Nat) (x : List Mat) (l : List String)
        (len : List Nat) (k s : List String),
        loadDataFromNpz npz m = .ok (x, l, len, k, s) →
          l.length = x.length ∧ len.length = x.length ∧
          k.length = x.length ∧ s.length = x.length)
    ∧ (∀ (g : RngState) (data : List Mat) (labels : List String) (lengths : List Nat)
        (keys speakers : List String) (c1 c2 c3 c4 : Option Nat),
        labels.length = data.length → lengths.length = data.length →
        keys.length = data.length → speakers.length = data.length →
        ∃ sel : List Nat, (∀ i ∈ sel, i < data.length) ∧
          filterData g data labels lengths keys speakers c1 c2 c3 c4 =
            selectRows sel ⟨data, labels, lengths, keys, speakers⟩ ∧
          (filterData g data labels lengths keys speakers c1 c2 c3 c4).data.length = sel.length ∧
          (filterData g data labels lengths keys speakers c1 c2 c3 c4).labels.length = sel.length ∧
          (filterData g data labels lengths keys speakers c1 c2 c3 c4).lengths.length = sel.length ∧
          (filterData g data labels lengths keys speakers c1 c2 c3 c4).keys.length = sel.length ∧
          (filterData g data labels lengths keys speakers c1 c2 c3 c4).speakers.length = sel.length) := by
  constructor
  · intro npz m x l len k s h
    obtain ⟨h1, h2, h3, h4, h5⟩ := load_ok_spec npz m x l len k s h
    rw [h2, h3, h4, h5]
    simp
  · intro g data labels lengths keys speakers c1 c2 c3 c4 hl1 hl2 hl3 hl4
    obtain ⟨sel, hval, heq⟩ :=
      filterData_origin g data labels lengths keys speakers c1 c2 c3 c4 hl1 hl2 hl3 hl4
    refine ⟨sel, hval, heq, ?_, ?_, ?_, ?_, ?_⟩ <;> rw [heq] <;> simp [selectRows]

theorem parallel_lists_witness :
    (loadDataFromNpz [("b_y", ⟨1, [[2], [3]]⟩), ("a_x", ⟨1, [[1]]⟩)] none =
        .ok ([⟨1, [[1]]⟩, ⟨1, [[2], [3]]⟩], ["a", "b"], [1, 2], ["a_x", "b_y"], ["x", "y"]) ∧
      (["a", "b"] : List String).length = ([⟨1, [[1]]⟩, ⟨1, [[2], [3]]⟩] : List Mat).length ∧
      ([1, 2] : List Nat).length = ([⟨1, [[1]]⟩, ⟨1, [[2], [3]]⟩] : List Mat).length ∧
      (["a_x", "b_y"] : List String).length = ([⟨1, [[1]]⟩, ⟨1, [[2], [3]]⟩] : List Mat).length ∧
      (["x", "y"] : List String).length = ([⟨1, [[1]]⟩, ⟨1, [[2], [3]]⟩] : List Mat).length) ∧
    (∃ sel : List Nat, (∀ i ∈ sel, i < ([(⟨1, [[1]]⟩ : Mat)] : List Mat).length) ∧
      filterData 0 [⟨1, [[1]]⟩] ["a"] [1] ["k1"] ["sp"] none none none none =
        selectRows sel ⟨[⟨1, [[1]]⟩], ["a"], [1], ["k1"], ["sp"]⟩ ∧
      (filterData 0 [⟨1, [[1]]⟩] ["a"] [1] ["k1"] ["sp"] none none none none).data.length = sel.length ∧
      (filterData 0 [⟨1, [[1]]⟩] ["a"] [1] ["k1"] ["sp"] none none none none).labels.length = sel.length ∧
      (filterData 0 [⟨1, [[1]]⟩] ["a"] [1] ["k1"] ["sp"] none none none none).lengths.length = sel.length ∧
      (filterData 0 [⟨1, [[1]]⟩] ["a"] [1] ["k1"] ["sp"] none none none none).keys.length = sel.length ∧
      (filterData 0 [⟨1, [[1]]⟩] ["a"] [1] ["k1"] ["sp"] none none none none).speakers.length = sel.length) :=
  ⟨⟨rfl, parallel_lists_spec.1 [("b_y", ⟨1, [[2], [3]]⟩), ("a_x", ⟨1, [[1]]⟩)] none
      _ _ _ _ _ rfl⟩,
   parallel_lists_spec.2 0 _ _ _ _ _ none none none none rfl rfl rfl rfl⟩

/-! ## Claims C3, C4, C5 -/

/-- C3: filter_data with n_max_types = k alone returns at most k distinct
labels, all among the k most frequent labels of the input; with
n_max_tokens_per_type = m alone every label occurs at most m times; and
when both constraints are passed in one call both bounds hold together. -/
theorem filter_data_bounds_spec
    (g : RngState) (data : List Mat) (labels : List String) (lengths : List Nat)
    (keys speakers : List String) (kk m : Nat) :
    ((filterData g data labels lengths keys speakers none (some kk) none none).labels.toFinset.card ≤ kk
      ∧ (filterData g data labels lengths keys speakers none (some kk) none none).labels.all
          (fun lab => decide (lab ∈ mostCommon kk labels)) = true)
    ∧ (∀ lab,
        (filterData g data labels lengths keys speakers none none none (some m)).labels.count lab ≤ m)
    ∧ ((filterData g data labels lengths keys speakers
          none (some kk) none (some m)).labels.toFinset.card ≤ kk
      ∧ ∀ lab,
        (filterData g data labels lengths keys speakers
          none (some kk) none (some m)).labels.count lab ≤ m) := by
  have e1 : filterData g data labels lengths keys speakers none (some kk) none none =
      stageMaxTypes kk ⟨data, labels, lengths, keys, speakers⟩ := rfl
  have e2 : filterData g data labels lengths keys speakers none none none (some m) =
      (stageMaxPerType (seedRng 1) m ⟨data, labels, lengths, keys, speakers⟩).1 := rfl
  have e3 : filterData g data labels lengths keys speakers none (some kk) none (some m) =
      (stageMaxPerType (seedRng 1) m
        (stageMaxTypes kk ⟨data, labels, lengths, keys, speakers⟩)).1 := rfl
  refine ⟨⟨?_, ?_⟩, ?_, ?_, ?_⟩
  · rw [e1]; exact stageMaxTypes_card kk _
  · rw [e1, List.all_eq_true]
    intro lab hlab
    simpa using stageMaxTypes_labels_mem kk _ lab hlab
  · intro lab; rw [e2]; exact stageMaxPerType_count _ m _ lab
  · rw [e3]
    refine le_trans
      (card_le_of_mem_all _ (mostCommon kk labels) ?_) (List.length_take_le _ _)
    intro x hx
    exact stageMaxTypes_labels_mem kk _ x
      (stageMaxPerType_labels_mem _ m _ (stageMaxTypes_labels_length kk _) x hx)
  · intro lab; rw [e3]; exact stageMaxPerType_count _ m _ lab

/-- C4: filter_data is deterministic across invocations: whatever the
ambient state of the global random generator, identical input lists and
identical constraint arguments give identical results, because
random.seed(1) fixes the stream once per invocation (the shuffling stages
then consume that one reseeded stream in order). -/
theorem filter_data_deterministic_spec
    (g1 g2 : RngState) (data : List Mat) (labels : List String) (lengths : List Nat)
    (keys speakers : List String) (c1 c2 c3 c4 : Option Nat) :
    filterData g1 data labels lengths keys speakers c1 c2 c3 c4 =
      filterData g2 data labels lengths keys speakers c1 c2 c3 c4 := rfl

/-- C5: filter_data with all four constraints absent returns the five
input lists unchanged, in the same order. -/
theorem filter_data_noop_spec
    (g : RngState) (data : List Mat) (labels : List String) (lengths : List Nat)
    (keys speakers : List String) :
    filterData g data labels lengths keys speakers none none none none =
      ⟨data, labels, lengths, keys, speakers⟩ := rfl

/-! ## Lemmas about pad_sequences -/

theorem getD_range_map {α : Type} (n : Nat) (f : Nat → α) (j : Nat) (d : α) (h : j < n) :
    ((List.range n).map f).getD j d = f j := by
  rw [List.getD_eq_getElem _ _ (by simpa using h)]
  simp

theorem indicatorSum (s e : Nat) :
    ∀ n : Nat,
      ((List.range n).map (fun j => if s ≤ j ∧ j < e then (1 : Int) else 0)).sum =
        ((min e n - min s n : Nat) : Int) := by
  intro n
  induction n with
  | zero => simp
  | succ n ih =>
    rw [List.range_succ, List.map_append, List.sum_append]
    simp only [List.map_cons, List.map_nil, List.sum_cons, List.sum_nil]
    rw [ih]
    by_cases h1 : s ≤ n ∧ n < e
    · rw [if_pos h1]
      omega
    · rw [if_neg h1]
      omega

theorem npBroadcast_exact (tRows tCols : Nat) (rows : List (List Int)) (rCols : Nat)
    (h1 : rows.length = tRows) (h2 : rCols = tCols) :
    npBroadcast tRows tCols rows rCols = some rows := by
  unfold npBroadcast
  rw [if_pos ⟨h1, h2⟩]

theorem npBroadcast_none (tRows tCols : Nat) (rows : List (List Int)) (rCols : Nat)
    (h1 : rCols ≠ tCols) (h2 : rCols ≠ 1) :
    npBroadcast tRows tCols rows rCols = none := by
  unfold npBroadcast
  rw [if_neg (by tauto), if_neg (by tauto)]

theorem npBroadcast_isSome (tRows tCols : Nat) (rows : List (List Int)) (rCols : Nat)
    (h1 : rows.length = tRows) (h2 : rCols = tCols ∨ rCols = 1) :
    ∃ b, npBroadcast tRows tCols rows rCols = some b := by
  unfold npBroadcast
  by_cases he : rows.length = tRows ∧ rCols = tCols
  · rw [if_pos he]; exact ⟨rows, rfl⟩
  · rw [if_neg he, if_pos ⟨Or.inl h1, h2⟩]
    exact ⟨_, rfl⟩

theorem padOne_short (T d0 : Nat) (cx : Mat) (hc : cx.cols = d0) (hL : cx.nRows ≤ T) :
    padOne T d0 true cx = .ok
      ((List.range T).map (fun j =>
          if (npRoundDiv2 ((T : Int) - cx.nRows)).toNat ≤ j ∧
             j < (npRoundDiv2 ((T : Int) - cx.nRows)).toNat + cx.nRows
          then cx.rows.getD (j - (npRoundDiv2 ((T : Int) - cx.nRows)).toNat) []
          else List.replicate d0 0),
        cx.nRows,
        (List.range T).map (fun j =>
          if (npRoundDiv2 ((T : Int) - cx.nRows)).toNat ≤ j ∧
             j < (npRoundDiv2 ((T : Int) - cx.nRows)).toNat + cx.nRows
          then (1 : Int) else 0)) := by
  have hd : (0 : Int) ≤ (T : Int) - (cx.nRows : Int) := by omega
  obtain ⟨hb1, hb2⟩ := (npRoundDiv2_bounds _).1 hd
  have ha : pySliceIdx T (npRoundDiv2 ((T : Int) - (cx.nRows : Int))) =
      (npRoundDiv2 ((T : Int) - (cx.nRows : Int))).toNat := by
    unfold pySliceIdx
    rw [if_neg (by omega)]
    omega
  have hbeq : pySliceIdx T (npRoundDiv2 ((T : Int) - (cx.nRows : Int)) + (cx.nRows : Int)) =
      (npRoundDiv2 ((T : Int) - (cx.nRows : Int))).toNat + cx.nRows := by
    unfold pySliceIdx
    rw [if_neg (by omega)]
    omega
  simp only [padOne]
  rw [if_pos hL, ha, hbeq]
  have hsub : (npRoundDiv2 ((T : Int) - (cx.nRows : Int))).toNat + cx.nRows -
      (npRoundDiv2 ((T : Int) - (cx.nRows : Int))).toNat = cx.nRows := by omega
  rw [hsub, npBroadcast_exact cx.nRows d0 cx.rows cx.cols rfl hc, min_eq_left hL]

theorem cropStart_le (T L : Nat) (h : T < L) :
    (-(npRoundDiv2 ((T : Int) - L))).toNat + T ≤ L := by
  have hd : ((T : Int) - L) ≤ 0 := by omega
  obtain ⟨hb1, hb2⟩ := (npRoundDiv2_bounds _).2 hd
  omega

theorem padOne_long (T d0 : Nat) (cx : Mat) (hc : cx.cols = d0) (hL : T < cx.nRows) :
    padOne T d0 true cx = .ok
      ((cx.rows.drop (-(npRoundDiv2 ((T : Int) - cx.nRows))).toNat).take T,
       T, List.replicate T (1 : Int)) := by
  have hd : ((T : Int) - (cx.nRows : Int)) ≤ 0 := by omega
  obtain ⟨hb1, hb2⟩ := (npRoundDiv2_bounds _).2 hd
  have hstart := cropStart_le T cx.nRows hL
  have hrl : cx.rows.length = cx.nRows := rfl
  have hs : pySliceIdx cx.rows.length (-(npRoundDiv2 ((T : Int) - (cx.nRows : Int)))) =
      (-(npRoundDiv2 ((T : Int) - (cx.nRows : Int)))).toNat := by
    unfold pySliceIdx
    rw [if_neg (by omega)]
    omega
  have he : pySliceIdx cx.rows.length
        (-(npRoundDiv2 ((T : Int) - (cx.nRows : Int))) + (T : Int)) =
      (-(npRoundDiv2 ((T : Int) - (cx.nRows : Int)))).toNat + T := by
    unfold pySliceIdx
    rw [if_neg (by omega)]
    omega
  simp only [padOne]
  rw [if_neg (by omega)]
  simp only [pySlice]
  rw [hs, he]
  have hsub : (-(npRoundDiv2 ((T : Int) - (cx.nRows : Int)))).toNat + T -
      (-(npRoundDiv2 ((T : Int) - (cx.nRows : Int)))).toNat = T := by omega
  rw [hsub]
  have hwlen :
      ((cx.rows.drop (-(npRoundDiv2 ((T : Int) - (cx.nRows : Int)))).toNat).take T).length =
        T := by
    rw [List.length_take, List.length_drop]
    omega
  rw [npBroadcast_exact T d0 _ cx.cols hwlen hc, min_eq_right (le_of_lt hL)]
  have hw := rangeMapGetD
    ((cx.rows.drop (-(npRoundDiv2 ((T : Int) - (cx.nRows : Int)))).toNat).take T)
    ([] : List Int)
  rw [hwlen] at hw
  show Except.ok
      ((List.range T).map (fun j =>
        ((cx.rows.drop (-(npRoundDiv2 ((T : Int) - cx.nRows))).toNat).take T).getD j []),
       T, List.replicate T (1 : Int)) = _
  rw [hw]

theorem padAll_ok (T d0 : Nat) (c : Bool) :
    ∀ xs : List Mat,
      (∀ cx ∈ xs, ∃ t, padOne T d0 c cx = .ok t) →
      ∃ ps ls mks, padAll T d0 c xs = .ok (ps, ls, mks) ∧
        ps.length = xs.length ∧ ls.length = xs.length ∧ mks.length = xs.length ∧
        ∀ i (hi : i < xs.length),
          padOne T d0 c (xs.get ⟨i, hi⟩) =
            .ok (ps.getD i [], ls.getD i 0, mks.getD i []) := by
  intro xs
  induction xs with
  | nil =>
    intro _
    exact ⟨[], [], [], rfl, rfl, rfl, rfl, fun i hi => absurd hi (by simp)⟩
  | cons cx rest ih =>
    intro h
    obtain ⟨t, ht⟩ := h cx (List.mem_cons_self cx rest)
    obtain ⟨p, l, mk⟩ := t
    obtain ⟨ps, ls, mks, hAll, hl1, hl2, hl3, hitem⟩ :=
      ih (fun m hm => h m (List.mem_cons_of_mem cx hm))
    refine ⟨p :: ps, l :: ls, mk :: mks, ?_, by simp [hl1], by simp [hl2], by simp [hl3], ?_⟩
    · simp only [padAll]
      rw [ht, hAll]
    · intro i hi
      cases i with
      | zero => simpa using ht
      | succ n =>
        have hn : n < rest.length := by simpa using hi
        simpa using hitem n hn

theorem padOne_isOk (T d0 : Nat) (c : Bool) (cx : Mat)
    (hcol : cx.cols = d0 ∨ cx.cols = 1) :
    ∃ t, padOne T d0 c cx = .ok t := by
  have hrl : cx.rows.length = cx.nRows := rfl
  cases c with
  | true =>
    by_cases hL : cx.nRows ≤ T
    · have hd : (0 : Int) ≤ (T : Int) - (cx.nRows : Int) := by omega
      obtain ⟨hb1, hb2⟩ := (npRoundDiv2_bounds _).1 hd
      have ha : pySliceIdx T (npRoundDiv2 ((T : Int) - (cx.nRows : Int))) =
          (npRoundDiv2 ((T : Int) - (cx.nRows : Int))).toNat := by
        unfold pySliceIdx
        rw [if_neg (by omega)]
        omega
      have hbeq : pySliceIdx T (npRoundDiv2 ((T : Int) - (cx.nRows : Int)) + (cx.nRows : Int)) =
          (npRoundDiv2 ((T : Int) - (cx.nRows : Int))).toNat + cx.nRows := by
        unfold pySliceIdx
        rw [if_neg (by omega)]
        omega
      obtain ⟨b, hb⟩ := npBroadcast_isSome cx.nRows d0 cx.rows cx.cols rfl hcol
      simp only [padOne]
      rw [if_pos hL, ha, hbeq]
      rw [show (npRoundDiv2 ((T : Int) - (cx.nRows : Int))).toNat + cx.nRows -
          (npRoundDiv2 ((T : Int) - (cx.nRows : Int))).toNat = cx.nRows by omega]
      rw [hb]
      exact ⟨_, rfl⟩
    · have hd : ((T : Int) - (cx.nRows : Int)) ≤ 0 := by omega
      obtain ⟨hb1, hb2⟩ := (npRoundDiv2_bounds _).2 hd
      have hstart := cropStart_le T cx.nRows (by omega)
      have hs : pySliceIdx cx.rows.length (-(npRoundDiv2 ((T : Int) - (cx.nRows : Int)))) =
          (-(npRoundDiv2 ((T : Int) - (cx.nRows : Int)))).toNat := by
        unfold pySliceIdx
        rw [if_neg (by omega)]
        omega
      have he : pySliceIdx cx.rows.length
            (-(npRoundDiv2 ((T : Int) - (cx.nRows : Int))) + (T : Int)) =
          (-(npRoundDiv2 ((T : Int) - (cx.nRows : Int)))).toNat + T := by
        unfold pySliceIdx
        rw [if_neg (by omega)]
        omega
      have hwlen :
          ((cx.rows.drop (-(npRoundDiv2 ((T : Int) - (cx.nRows : Int)))).toNat).take T).length =
            T := by
        rw [List.length_take, List.length_drop]
        omega
      obtain ⟨b, hb⟩ := npBroadcast_isSome T d0 _ cx.cols hwlen hcol
      simp only [padOne]
      rw [if_neg (by omega)]
      simp only [pySlice]
      rw [hs, he]
      rw [show (-(npRoundDiv2 ((T : Int) - (cx.nRows : Int)))).toNat + T -
          (-(npRoundDiv2 ((T : Int) - (cx.nRows : Int)))).toNat = T by omega]
      rw [hb]
      exact ⟨_, rfl⟩
  | false =>
    have hlen : (cx.rows.take (min cx.nRows T)).length = min cx.nRows T := by
      rw [List.length_take]
      omega
    obtain ⟨b, hb⟩ := npBroadcast_isSome (min cx.nRows T) d0 _ cx.cols hlen hcol
    simp only [padOne]
    rw [hb]
    exact ⟨_, rfl⟩

theorem padOne_bad (T d0 : Nat) (c : Bool) (cx : Mat)
    (h1 : cx.cols ≠ d0) (h2 : cx.cols ≠ 1) :
    padOne T d0 c cx = .error .shapeMismatch := by
  cases c with
  | true =>
    simp only [padOne]
    by_cases hL : cx.nRows ≤ T
    · rw [if_pos hL, npBroadcast_none _ _ _ _ h1 h2]
    · rw [if_neg hL, npBroadcast_none _ _ _ _ h1 h2]
  | false =>
    simp only [padOne]
    rw [npBroadcast_none _ _ _ _ h1 h2]

theorem padAll_error (T d0 : Nat) (c : Bool) :
    ∀ xs : List Mat, (∃ cx ∈ xs, cx.cols ≠ d0 ∧ cx.cols ≠ 1) →
      padAll T d0 c xs = .error .shapeMismatch := by
  intro xs
  induction xs with
  | nil => intro h; simp at h
  | cons y ys ih =>
    intro h
    obtain ⟨cx, hmem, hbad1, hbad2⟩ := h
    simp only [padAll]
    by_cases hy : y.cols = d0 ∨ y.cols = 1
    · obtain ⟨t, ht⟩ := padOne_isOk T d0 c y hy
      obtain ⟨p, l, mk⟩ := t
      rw [ht]
      have hmem2 : cx ∈ ys := by
        rcases List.mem_cons.mp hmem with he | hm
        · exfalso
          rw [he] at hbad1 hbad2
          tauto
        · exact hm
      rw [ih ⟨cx, hmem2, hbad1, hbad2⟩]
    · push_neg at hy
      rw [padOne_bad T d0 c y hy.1 hy.2]

/-! ## Claims C1, C2, C8 -/

/-- C1: pad_sequences with center_padded on a batch sharing one feature
dimensionality: every sequence of length L ≤ n_padded is copied into rows
[offset, offset + L) with offset = round-half-to-even((n_padded - L) / 2),
every other row of that batch item is zero, the reported length is L, and
the requested mask row is 1 exactly on [offset, offset + L), so it sums to
L. -/
theorem pad_sequences_center_short_spec (x0 : Mat) (rest : List Mat) (T : Nat)
    (hcols : ∀ cx ∈ rest, cx.cols = x0.cols) :
    ∃ ps ls mks,
      padSequences (x0 :: rest) T true true = .ok (ps, ls, some mks) ∧
      ∀ i (hi : i < (x0 :: rest).length),
        ((x0 :: rest).get ⟨i, hi⟩).nRows ≤ T →
        CenterShortPadded T x0.cols ((x0 :: rest).get ⟨i, hi⟩)
          (ps.getD i []) (ls.getD i 0) (mks.getD i []) := by
  have hall : ∀ cx ∈ x0 :: rest, cx.cols = x0.cols := by
    intro cx hm
    rcases List.mem_cons.mp hm with he | hm2
    · rw [he]
    · exact hcols cx hm2
  have hex : ∀ cx ∈ x0 :: rest, ∃ t, padOne T x0.cols true cx = .ok t :=
    fun cx hm => padOne_isOk T x0.cols true cx (Or.inl (hall cx hm))
  obtain ⟨ps, ls, mks, hAll, hl1, hl2, hl3, hitem⟩ := padAll_ok T x0.cols true _ hex
  refine ⟨ps, ls, mks, ?_, ?_⟩
  · simp only [padSequences]
    rw [hAll]
    rfl
  · intro i hi hle
    have hone := hitem i hi
    rw [padOne_short T x0.cols _ (hall _ (List.get_mem _ _ _)) hle] at hone
    simp only [Except.ok.injEq, Prod.mk.injEq] at hone
    obtain ⟨e1, e2, e3⟩ := hone
    have hd : (0 : Int) ≤ (T : Int) - (((x0 :: rest).get ⟨i, hi⟩).nRows : Int) := by omega
    obtain ⟨hb1, hb2⟩ := (npRoundDiv2_bounds _).1 hd
    simp only [CenterShortPadded]
    refine ⟨?_, ?_, e2.symm, ?_, ?_⟩
    · rw [← e1]
      simp
    · intro j hj
      rw [← e1, getD_range_map _ _ _ _ hj]
    · intro j hj
      rw [← e3, getD_range_map _ _ _ _ hj]
    · rw [← e3, indicatorSum]
      omega

theorem pad_sequences_center_short_witness :
    padSequences [⟨2, [[1, 2], [3, 4]]⟩, ⟨2, [[5, 6], [7, 8], [9, 10]]⟩] 4 true true =
      .ok ([[[0, 0], [1, 2], [3, 4], [0, 0]], [[5, 6], [7, 8], [9, 10], [0, 0]]],
           [2, 3],
           some [[0, 1, 1, 0], [1, 1, 1, 0]]) ∧
    CenterShortPadded 4 2 ⟨2, [[1, 2], [3, 4]]⟩
      [[0, 0], [1, 2], [3, 4], [0, 0]] 2 [0, 1, 1, 0] := by
  obtain ⟨ps, ls, mks, h1, h2⟩ :=
    pad_sequences_center_short_spec ⟨2, [[1, 2], [3, 4]]⟩ [⟨2, [[5, 6], [7, 8], [9, 10]]⟩] 4
      (by decide)
  have hval : padSequences [⟨2, [[1, 2], [3, 4]]⟩, ⟨2, [[5, 6], [7, 8], [9, 10]]⟩] 4 true true =
      .ok ([[[0, 0], [1, 2], [3, 4], [0, 0]], [[5, 6], [7, 8], [9, 10], [0, 0]]], [2, 3],
        some [[0, 1, 1, 0], [1, 1, 1, 0]]) := by rfl
  have hc := h1.symm.trans hval
  simp only [Except.ok.injEq, Prod.mk.injEq, Option.some.injEq] at hc
  obtain ⟨hps, hls, hmks⟩ := hc
  subst hps hls hmks
  exact ⟨hval, h2 0 (by decide) (by decide)⟩

/-- C2: pad_sequences with center_padded on a batch sharing one feature
dimensionality: every sequence of length L > n_padded is replaced by the
window of exactly n_padded consecutive rows starting at row -offset with
offset = round-half-to-even((n_padded - L) / 2) (a centered crop), the
window is always in bounds, the reported length is n_padded, and the
requested mask row is all ones. -/
theorem pad_sequences_center_crop_spec (x0 : Mat) (rest : List Mat) (T : Nat)
    (hcols : ∀ cx ∈ rest, cx.cols = x0.cols) :
    ∃ ps ls mks,
      padSequences (x0 :: rest) T true true = .ok (ps, ls, some mks) ∧
      ∀ i (hi : i < (x0 :: rest).length),
        T < ((x0 :: rest).get ⟨i, hi⟩).nRows →
        CenterCropPadded T ((x0 :: rest).get ⟨i, hi⟩)
          (ps.getD i []) (ls.getD i 0) (mks.getD i []) := by
  have hall : ∀ cx ∈ x0 :: rest, cx.cols = x0.cols := by
    intro cx hm
    rcases List.mem_cons.mp hm with he | hm2
    · rw [he]
    · exact hcols cx hm2
  have hex : ∀ cx ∈ x0 :: rest, ∃ t, padOne T x0.cols true cx = .ok t :=
    fun cx hm => padOne_isOk T x0.cols true cx (Or.inl (hall cx hm))
  obtain ⟨ps, ls, mks, hAll, hl1, hl2, hl3, hitem⟩ := padAll_ok T x0.cols true _ hex
  refine ⟨ps, ls, mks, ?_, ?_⟩
  · simp only [padSequences]
    rw [hAll]
    rfl
  · intro i hi hlt
    have hone := hitem i hi
    rw [padOne_long T x0.cols _ (hall _ (List.get_mem _ _ _)) hlt] at hone
    simp only [Except.ok.injEq, Prod.mk.injEq] at hone
    obtain ⟨e1, e2, e3⟩ := hone
    have hstart := cropStart_le T ((x0 :: rest).get ⟨i, hi⟩).nRows hlt
    have hrl : ((x0 :: rest).get ⟨i, hi⟩).rows.length = ((x0 :: rest).get ⟨i, hi⟩).nRows := rfl
    simp only [CenterCropPadded]
    refine ⟨e1.symm, ?_, hstart, e2.symm, e3.symm⟩
    rw [← e1, List.length_take, List.length_drop]
    omega

theorem pad_sequences_center_crop_witness :
    padSequences [⟨1, [[1], [2], [3], [4], [5]]⟩] 3 true true =
      .ok ([[[2], [3], [4]]], [3], some [[1, 1, 1]]) ∧
    CenterCropPadded 3 ⟨1, [[1], [2], [3], [4], [5]]⟩ [[2], [3], [4]] 3 [1, 1, 1] := by
  obtain ⟨ps, ls, mks, h1, h2⟩ :=
    pad_sequences_center_crop_spec ⟨1, [[1], [2], [3], [4], [5]]⟩ [] 3 (by decide)
  have hval : padSequences [⟨1, [[1], [2], [3], [4], [5]]⟩] 3 true true =
      .ok ([[[2], [3], [4]]], [3], some [[1, 1, 1]]) := by rfl
  have hc := h1.symm.trans hval
  simp only [Except.ok.injEq, Prod.mk.injEq, Option.some.injEq] at hc
  obtain ⟨hps, hls, hmks⟩ := hc
  subst hps hls hmks
  exact ⟨hval, h2 0 (by decide) (by decide)⟩

/-- C8 counterexample: a batch whose second sequence has feature
dimensionality 1 while the first has 2 does not make pad_sequences fail:
numpy broadcasting stretches the single column across the target slot and
the call returns a padded tensor. -/
theorem pad_sequences_mismatch_cex :
    (Mat.cols ⟨1, [[5]]⟩ ≠ Mat.cols ⟨2, [[1, 2]]⟩) ∧
    padSequences [⟨2, [[1, 2]]⟩, ⟨1, [[5]]⟩] 1 true false =
      .ok ([[[1, 2]], [[5, 5]]], [1, 1], none) := ⟨by decide, by rfl⟩

/-- C8 (amended): pad_sequences fails with the shape-mismatch error, with
no partial output, whenever some sequence in the batch has a feature
dimensionality that differs from the first sequence's and is not 1; a
sequence of feature dimensionality 1 is instead broadcast across the first
sequence's feature dimension. -/
theorem pad_sequences_mismatch_spec (x0 : Mat) (rest : List Mat) (T : Nat) (c mk : Bool)
    (h : ∃ cx ∈ rest, cx.cols ≠ x0.cols ∧ cx.cols ≠ 1) :
    padSequences (x0 :: rest) T c mk = .error .shapeMismatch := by
  obtain ⟨cx, hm, h1, h2⟩ := h
  simp only [padSequences]
  rw [padAll_error T x0.cols c _ ⟨cx, List.mem_cons_of_mem x0 hm, h1, h2⟩]

theorem pad_sequences_mismatch_witness :
    (∃ cx ∈ [(⟨3, [[2, 3, 4]]⟩ : Mat)], cx.cols ≠ (⟨1, [[1]]⟩ : Mat).cols ∧ cx.cols ≠ 1) ∧
    padSequences [⟨1, [[1]]⟩, ⟨3, [[2, 3, 4]]⟩] 1 true false = .error .shapeMismatch :=
  ⟨by decide, pad_sequences_mismatch_spec ⟨1, [[1]]⟩ [⟨3, [[2, 3, 4]]⟩] 1 true false (by decide)⟩
